import Mathlib

/-!
Verification of the go-wav library (wav.go) against its specification.

The Go source is shallowly embedded: machine integers (uint16, uint32,
int32) become Nat or Int with explicit reductions modulo 2^16 or 2^32 at
the points where the Go code truncates or wraps; byte slices become
List Nat (each entry a byte value below 256); functions returning a Go
error become Option- or Except-valued functions.

Places where the Go code would panic (integer division by zero, slice
index out of range) have no error value in Go; the embedding uses total
operations (Nat division by zero yields 0, List.getD and List.set out of
range are no-ops) and every theorem below carries hypotheses that keep
the corresponding Go execution away from those panics.
-/

namespace wav

/-- Format tag constant WAVE_FORMAT_PCM from wav.go. -/
def WAVE_FORMAT_PCM : Nat := 0x1

/-- Format tag constant WAVE_FORMAT_EXTENSIBLE from wav.go. -/
def WAVE_FORMAT_EXTENSIBLE : Nat := 0xFFFE

/-- Little-endian byte encoding of a value on k bytes, as produced by
binary.Write with a k-byte unsigned integer (extra high bits are
truncated, exactly as the Go uint conversions do). -/
def leBytes : Nat → Nat → List Nat
  | 0, _ => []
  | k + 1, v => v % 256 :: leBytes k (v / 256)

/-- Value of a little-endian byte list, as read by binary.Read. -/
def leVal : List Nat → Nat
  | [] => 0
  | b :: bs => b + 256 * leVal bs

/-- The File struct of wav.go.  formatTag, channels, blockAlign and
bitsPerSample are uint16 fields; samplesPerSec, avgBytesPerSec and
length are uint32 fields; data is the raw sample payload and offset the
read cursor. -/
structure File where
  formatTag : Nat
  channels : Nat
  samplesPerSec : Nat
  avgBytesPerSec : Nat
  blockAlign : Nat
  bitsPerSample : Nat
  length : Nat
  data : List Nat
  offset : Nat
deriving Repr, DecidableEq

/-- The zero value of the File struct, as produced by the Go composite
literal with no fields set. -/
def File0 : File :=
  { formatTag := 0, channels := 0, samplesPerSec := 0, avgBytesPerSec := 0,
    blockAlign := 0, bitsPerSample := 0, length := 0, data := [], offset := 0 }

/-- One binary.Read of a k-byte little-endian field through an
io.NewSectionReader at a byte offset: when the stream holds the whole
field the value is read, otherwise binary.Read fails and the destination
keeps its old value (the Go code ignores the returned error). -/
def readField (s : List Nat) (off k old : Nat) : Nat :=
  if off + k ≤ s.length then leVal ((s.drop off).take k) else old

/-- Embedding of Unmarshal from wav.go.  The first component models the
returned error; the second the final state of the File the Go code
mutates through its pointer argument (on the format-tag error path the
format tag has already been overwritten). -/
def Unmarshal (s : List Nat) (audio : File) : Option String × File :=
  let a1 := { audio with formatTag := readField s 20 2 audio.formatTag }
  if a1.formatTag = WAVE_FORMAT_PCM ∨ a1.formatTag = WAVE_FORMAT_EXTENSIBLE then
    let a2 := { a1 with
      channels := readField s 22 2 a1.channels
      samplesPerSec := readField s 24 4 a1.samplesPerSec
      avgBytesPerSec := readField s 28 4 a1.avgBytesPerSec
      blockAlign := readField s 32 2 a1.blockAlign
      bitsPerSample := readField s 34 2 a1.bitsPerSample }
    let a3 :=
      if a2.formatTag = WAVE_FORMAT_PCM then
        { a2 with length := readField s 40 4 a2.length }
      else
        { a2 with length := readField s 76 4 a2.length }
    let off := if a3.formatTag = WAVE_FORMAT_PCM then 44 else 80
    (none, { a3 with data := (s.drop off).take a3.length })
  else
    (some "error: invalid format tag", a1)

/-- Channel mask table getChannelMask from wav.go. -/
def getChannelMask (c : Nat) : Nat :=
  if c = 1 then 0x4
  else if c = 2 then 0x3
  else if c = 4 then 0x33
  else if c = 6 then 0x3f
  else if c = 8 then 0x63f
  else 0

/-- Byte constants for the literal tags written by Marshal. -/
def riffTag : List Nat := [82, 73, 70, 70]

/-- Bytes of the literal string WAVEfmt with its trailing space. -/
def waveFmtTag : List Nat := [87, 65, 86, 69, 102, 109, 116, 32]

/-- Bytes of the literal string fact. -/
def factTag : List Nat := [102, 97, 99, 116]

/-- Bytes of the literal string data. -/
def dataTag : List Nat := [100, 97, 116, 97]

/-- The fixed sub-format GUID written by Marshal for extensible files. -/
def guidPCM : List Nat :=
  [0x01, 0x00, 0x00, 0x00, 0x00, 0x00, 0x10, 0x00,
   0x80, 0x00, 0x00, 0xaa, 0x00, 0x38, 0x9b, 0x71]

/-- Embedding of Marshal from wav.go.  The reductions modulo 2^32 mirror
the uint32 conversions and uint32 arithmetic of the Go code.  For an
extensible file with blockAlign = 0 the Go code panics on the division
computing the fact frame count; here Nat division yields 0, and every
theorem touching that branch assumes blockAlign is nonzero. -/
def Marshal (v : File) : Except String (List Nat) :=
  if v.formatTag = WAVE_FORMAT_PCM then
    Except.ok (riffTag ++ (leBytes 4 ((v.length + 36) % 4294967296) ++ (waveFmtTag ++
      (leBytes 4 16 ++ (leBytes 2 v.formatTag ++ (leBytes 2 v.channels ++
      (leBytes 4 v.samplesPerSec ++ (leBytes 4 v.avgBytesPerSec ++
      (leBytes 2 v.blockAlign ++ (leBytes 2 v.bitsPerSample ++
      (dataTag ++ (leBytes 4 v.length ++ v.data))))))))))))
  else if v.formatTag = WAVE_FORMAT_EXTENSIBLE then
    Except.ok (riffTag ++ (leBytes 4 ((v.length + 72) % 4294967296) ++ (waveFmtTag ++
      (leBytes 4 40 ++ (leBytes 2 v.formatTag ++ (leBytes 2 v.channels ++
      (leBytes 4 v.samplesPerSec ++ (leBytes 4 v.avgBytesPerSec ++
      (leBytes 2 v.blockAlign ++ (leBytes 2 v.bitsPerSample ++
      (leBytes 2 22 ++ (leBytes 2 v.bitsPerSample ++
      (leBytes 4 (getChannelMask v.channels) ++ (guidPCM ++
      (factTag ++ (leBytes 4 4 ++ (leBytes 4 (v.length / v.blockAlign % 4294967296) ++
      (dataTag ++ (leBytes 4 v.length ++ v.data)))))))))))))))))))
  else
    Except.error "error: invalid format tag"

/-- Go conversion uint16(i) for an int argument (two's complement). -/
def u16ofInt (i : Int) : Nat := (i % 65536).toNat

/-- Go conversion uint32(i) for an int argument (two's complement). -/
def u32ofInt (i : Int) : Nat := (i % 4294967296).toNat

/-- Embedding of New from wav.go.  The Go test bitsPerSample % 8 != 0
uses truncated remainder; it is nonzero exactly when 8 does not divide
bitsPerSample, which the Euclidean remainder below expresses as well.
blockAlign is computed in uint16 arithmetic (wrapping product, then
division by 8) and avgBytesPerSec in uint32 arithmetic. -/
def New (samplesPerSec bitsPerSample channels : Int) : Except String File :=
  let formatTag := if 16 < bitsPerSample then WAVE_FORMAT_EXTENSIBLE else WAVE_FORMAT_PCM
  if bitsPerSample % 8 ≠ 0 then
    Except.error "wav: invalid bits per sample"
  else
    let ch := u16ofInt channels
    let bits := u16ofInt bitsPerSample
    let rate := u32ofInt samplesPerSec
    let ba := ch * bits % 65536 / 8
    Except.ok { formatTag := formatTag, channels := ch, samplesPerSec := rate,
                avgBytesPerSec := rate * ba % 4294967296, blockAlign := ba,
                bitsPerSample := bits, length := 0, data := [], offset := 0 }

/-- Samples from wav.go: length / (blockAlign / channels), both divisions
integer.  The Go code panics when channels or blockAlign / channels is
zero; theorems using this definition assume both are nonzero. -/
def Samples (v : File) : Nat := v.length / (v.blockAlign / v.channels)

/-- Duration from wav.go, in nanoseconds (Go time.Duration):
time.Duration(length / blockAlign) * time.Second. -/
def Duration (v : File) : Nat := v.length / v.blockAlign * 1000000000

/-- Embedding of Read from wav.go.  The result carries the bytes copied
into the destination slice (its length is the returned count), whether
io.EOF was returned, and the File with its advanced cursor.  The Go code
indexes data at the cursor, which panics when the cursor is at or past
the end of data while still below length; List.getD stands in for that
access and the theorems assume length is the length of data. -/
def Read (v : File) (size : Nat) : List Nat × Bool × File :=
  match size with
  | 0 => ([], false, v)
  | k + 1 =>
    if v.length ≤ v.offset then ([], true, v)
    else
      let r := Read { v with offset := v.offset + 1 } k
      (v.data.getD v.offset 0 :: r.1, r.2.1, r.2.2)

/-- Embedding of Write from wav.go: the bytes are appended one by one and
length is increased by uint32(size) in uint32 arithmetic. -/
def Write (v : File) (b : List Nat) : Nat × File :=
  (b.length,
   { v with data := v.data ++ b,
            length := (v.length + b.length % 4294967296) % 4294967296 })

/-- Two's-complement reading of one byte as a Go int8. -/
def sgn8 (b : Nat) : Int := if b < 128 then (b : Int) else (b : Int) - 256

/-- Two's-complement reading of a 16-bit value as a Go int16. -/
def sgn16 (x : Nat) : Int := if x < 32768 then (x : Int) else (x : Int) - 65536

/-- Two's-complement reading of a 32-bit value as a Go int32. -/
def sgn32 (x : Nat) : Int :=
  if x < 2147483648 then (x : Int) else (x : Int) - 4294967296

/-- Wrap-around of Go int32 arithmetic. -/
def wrap32 (x : Int) : Int := (x + 2147483648) % 4294967296 - 2147483648

/-- One binary.Read of n k-byte little-endian values into a freshly
allocated slice of n elements: when the buffer holds all n values they
are read, otherwise binary.Read fails and the slice keeps its zeros (the
Go code ignores the returned error).  The values returned here are the
raw unsigned k-byte values; the callers apply the signed reading. -/
def readInts (k n : Nat) (l : List Nat) : List Nat :=
  if k * n ≤ l.length then
    (List.range n).map (fun i => leVal ((l.drop (k * i)).take k))
  else
    List.replicate n 0

/-- fromS8ToInt32s from wav.go: int32(int8 sample) * 2^24.  The product
never overflows int32, so no wrap-around is applied. -/
def fromS8ToInt32s (v : File) : List Int :=
  (readInts 1 (Samples v) v.data).map (fun b => sgn8 b * 16777216)

/-- fromS16ToInt32s from wav.go: int32(int16 sample) * 2^16.  The product
never overflows int32, so no wrap-around is applied. -/
def fromS16ToInt32s (v : File) : List Int :=
  (readInts 2 (Samples v) v.data).map (fun x => sgn16 x * 65536)

/-- fromS24ToInt32s from wav.go.  The loop copies each 3-byte sample k to
positions 4k+1, 4k+2, 4k+3 of a samples*4 buffer (position 4k stays 0),
the buffer is read as int32 words, and each word is then multiplied by
2^8 in wrapping int32 arithmetic.  List.set and List.getD are no-ops out
of range where the Go code would panic; the theorems assume length is a
multiple of 3 and equal to the length of data, which keeps all accesses
in range. -/
def fromS24ToInt32s (v : File) : List Int :=
  let samples := Samples v
  let buf := (List.range ((v.length + 2) / 3)).foldl
    (fun d k =>
      ((d.set (4 * k + 1) (v.data.getD (3 * k) 0)).set
        (4 * k + 2) (v.data.getD (3 * k + 1) 0)).set
        (4 * k + 3) (v.data.getD (3 * k + 2) 0))
    (List.replicate (samples * 4) 0)
  (readInts 4 samples buf).map (fun x => wrap32 (sgn32 x * 256))

/-- fromS32ToInt32s from wav.go: the payload read directly as int32. -/
def fromS32ToInt32s (v : File) : List Int :=
  (readInts 4 (Samples v) v.data).map sgn32

/-- Int32s from wav.go: dispatch on bits per sample, empty for any
unsupported depth. -/
def Int32s (v : File) : List Int :=
  if v.bitsPerSample = 8 then fromS8ToInt32s v
  else if v.bitsPerSample = 16 then fromS16ToInt32s v
  else if v.bitsPerSample = 24 then fromS24ToInt32s v
  else if v.bitsPerSample = 32 then fromS32ToInt32s v
  else []

/-- A byte buffer of the fixed-offset PCM profile of the spec, with the
header fields at offsets 20 to 35, the data tag at 36, the payload
length at 40 and the payload at 44, and the total-size field at offset 4
equal to payload length + 36. -/
def pcmProfile (ch rate avg align bits : Nat) (payload : List Nat) : List Nat :=
  riffTag ++ (leBytes 4 (payload.length + 36) ++ (waveFmtTag ++ (leBytes 4 16 ++
    (leBytes 2 WAVE_FORMAT_PCM ++ (leBytes 2 ch ++ (leBytes 4 rate ++ (leBytes 4 avg ++
    (leBytes 2 align ++ (leBytes 2 bits ++ (dataTag ++
    (leBytes 4 payload.length ++ payload)))))))))))

/-- A byte buffer of the fixed-offset EXTENSIBLE profile of the spec:
the PCM header fields, then cbSize = 22, validBitsPerSample, the channel
mask, the fixed sub-format GUID, the fact chunk with its frame count,
the data tag at 72, the payload length at 76 and the payload at 80 (the
spec table elides the 4-byte data tag, these are the offsets the codec
itself reads and writes). -/
def extProfile (ch rate avg align bits vbits mask fcount : Nat)
    (payload : List Nat) : List Nat :=
  riffTag ++ (leBytes 4 (payload.length + 72) ++ (waveFmtTag ++ (leBytes 4 40 ++
    (leBytes 2 WAVE_FORMAT_EXTENSIBLE ++ (leBytes 2 ch ++ (leBytes 4 rate ++
    (leBytes 4 avg ++ (leBytes 2 align ++ (leBytes 2 bits ++ (leBytes 2 22 ++
    (leBytes 2 vbits ++ (leBytes 4 mask ++ (guidPCM ++ (factTag ++ (leBytes 4 4 ++
    (leBytes 4 fcount ++ (dataTag ++ (leBytes 4 payload.length ++
    payload))))))))))))))))))

/-- Decode-then-encode composition: Unmarshal into a fresh File followed
by Marshal, none when either step fails. -/
def reencode (s : List Nat) : Option (List Nat) :=
  match Unmarshal s File0 with
  | (none, f) => (Marshal f).toOption
  | (some _, _) => none

/-- Two's-complement reading of a 24-bit value (sign extension: a value
with its top bit set is negative, the missing high byte is filled with
0xFF). -/
def sgn24 (x : Nat) : Int := if x < 8388608 then (x : Int) else (x : Int) - 16777216

/-- Modelled from the spec: the 24-bit branch of the sample conversion
as the spec states it, for comparison with fromS24ToInt32s.  Each
little-endian 3-byte sample is sign-extended to 32 bits and then
left-shifted by 8 bits, that is multiplied by 2^8. -/
def specFromS24 (data : List Nat) : List Int :=
  (List.range (data.length / 3)).map
    (fun k => sgn24 (leVal ((data.drop (3 * k)).take 3)) * 256)

theorem leBytes_length (k v : Nat) : (leBytes k v).length = k := by
  induction k generalizing v with
  | zero => rfl
  | succ k ih => simp [leBytes, ih]

theorem leVal_leBytes (k v : Nat) (h : v < 256 ^ k) : leVal (leBytes k v) = v := by
  induction k generalizing v with
  | zero =>
    simp only [Nat.pow_zero, Nat.lt_one_iff] at h
    simp [leBytes, leVal, h]
  | succ k ih =>
    have hdiv : v / 256 < 256 ^ k := by
      apply Nat.div_lt_of_lt_mul
      rw [← Nat.pow_succ']
      exact h
    simp only [leBytes, leVal, ih (v / 256) hdiv]
    omega

theorem readField_of_le (s : List Nat) (off k old : Nat) (h : off + k ≤ s.length) :
    readField s off k old = leVal ((s.drop off).take k) := by
  unfold readField
  rw [if_pos h]


theorem readInts_length (k n : Nat) (l : List Nat) : (readInts k n l).length = n := by
  unfold readInts
  split <;> simp

/-- C2: the codec converts each 24-bit sample by the byte shuffle (which
already yields the sign-extended sample times 2^8) followed by another
wrapping multiplication by 2^8, so the result is the sample times 2^16
with the most significant byte shifted out, not the sample times 2^8
the spec states.  On the two samples 0x000001 and 0x008000 the code
yields 65536 and -2147483648 where the spec demands 256 and 8388608. -/
theorem c2_s24_conversion_bug :
    Int32s { File0 with bitsPerSample := 24, channels := 1, blockAlign := 3,
                        length := 6, data := [1, 0, 0, 0, 128, 0] } =
      [65536, -2147483648] ∧
    specFromS24 [1, 0, 0, 0, 128, 0] = [256, 8388608] ∧
    ([65536, -2147483648] : List Int) ≠ [256, 8388608] :=
  ⟨by decide, by decide, by decide⟩

/-- C9: for a bit depth other than 8, 16, 24 and 32, Int32s returns the
empty list; the conversion is a total function with no error result. -/
theorem c9_unsupported_depth_empty (f : File) (h8 : f.bitsPerSample ≠ 8)
    (h16 : f.bitsPerSample ≠ 16) (h24 : f.bitsPerSample ≠ 24)
    (h32 : f.bitsPerSample ≠ 32) : Int32s f = [] := by
  simp [Int32s, h8, h16, h24, h32]

theorem c9_unsupported_depth_empty_witness :
    ({ File0 with bitsPerSample := 12 } : File).bitsPerSample ≠ 8 ∧
    Int32s { File0 with bitsPerSample := 12 } = [] :=
  ⟨by decide,
   c9_unsupported_depth_empty { File0 with bitsPerSample := 12 }
     (by decide) (by decide) (by decide) (by decide)⟩

/-- C10: with a nonzero block align, Duration is the integer number of
sample frames length / blockAlign taken as that many seconds (Go
time.Duration counts nanoseconds), and it does not depend on the sample
rate field at all. -/
theorem c10_duration_frames (f : File) (h : 0 < f.blockAlign) :
    Duration f = f.length / f.blockAlign * 1000000000 ∧
    ∀ r, Duration { f with samplesPerSec := r } = Duration f :=
  ⟨rfl, fun _ => rfl⟩

theorem c10_duration_frames_witness :
    0 < ({ File0 with length := 7, blockAlign := 2 } : File).blockAlign ∧
    Duration { File0 with length := 7, blockAlign := 2 } =
      ({ File0 with length := 7, blockAlign := 2 } : File).length /
        ({ File0 with length := 7, blockAlign := 2 } : File).blockAlign * 1000000000 :=
  ⟨by decide, (c10_duration_frames { File0 with length := 7, blockAlign := 2 } (by decide)).1⟩

/-- C5: New fails exactly when the bit depth is not a multiple of 8, and
on success the format tag is PCM for at most 16 bits and EXTENSIBLE
above 16 bits. -/
theorem c5_new_spec (rate bits ch : Int) :
    ((∃ f, New rate bits ch = Except.ok f) ↔ bits % 8 = 0) ∧
    ∀ f, New rate bits ch = Except.ok f →
      (bits ≤ 16 → f.formatTag = WAVE_FORMAT_PCM) ∧
      (16 < bits → f.formatTag = WAVE_FORMAT_EXTENSIBLE) := by
  by_cases hb : bits % 8 = 0
  · constructor
    · simp [New, hb]
    · intro f hf
      simp [New, hb] at hf
      constructor
      · intro hle
        rw [← hf]
        simp [if_neg (by omega : ¬ 16 < bits)]
      · intro hgt
        rw [← hf]
        simp [if_pos hgt]
  · constructor
    · simp [New, hb]
    · intro f hf
      simp [New, hb] at hf

/-- Helper: a successful Unmarshal stores as data exactly the bytes of
the stream from the profile data offset, truncated to the stored length. -/
theorem unmarshal_ok_data (s : List Nat) (f0 f : File)
    (h : Unmarshal s f0 = (none, f)) :
    f.data = (s.drop (if f.formatTag = WAVE_FORMAT_PCM then 44 else 80)).take f.length := by
  simp only [Unmarshal] at h
  split at h
  case isTrue hv =>
    split at h
    case isTrue hpcm =>
      simp only [Prod.mk.injEq] at h
      rw [← h.2]
      simp [hpcm]
    case isFalse hpcm =>
      simp only [Prod.mk.injEq] at h
      rw [← h.2]
      simp [hpcm]
  case isFalse hv =>
    simp at h

/-- C3, counterexample: Unmarshal copies the stream header fields
verbatim, so decoding a buffer that declares 1 channel, 8 bits per
sample and block align 7 succeeds and yields a File violating
blockAlign = channels * bitsPerSample / 8. -/
theorem c3_decode_counterexample :
    (Unmarshal (pcmProfile 1 8000 8000 7 8 []) File0).1 = none ∧
    (Unmarshal (pcmProfile 1 8000 8000 7 8 []) File0).2.blockAlign ≠
      (Unmarshal (pcmProfile 1 8000 8000 7 8 []) File0).2.channels *
        (Unmarshal (pcmProfile 1 8000 8000 7 8 []) File0).2.bitsPerSample / 8 := by
  decide

/-- C3, amended: the two derived-field invariants hold for every File
built by a successful New whose channel, bit-depth and rate arguments
keep the uint16 and uint32 products from wrapping; Unmarshal gives no
such guarantee (see the counterexample). -/
theorem c3_invariants_after_new (rate bits ch : Nat) (h1 : rate < 4294967296)
    (h2 : ch < 65536) (h3 : bits < 65536) (h4 : ch * bits < 65536)
    (h5 : rate * (ch * bits / 8) < 4294967296) (f : File)
    (hf : New (rate : Int) (bits : Int) (ch : Int) = Except.ok f) :
    f.blockAlign = f.channels * f.bitsPerSample / 8 ∧
    f.avgBytesPerSec = f.samplesPerSec * f.blockAlign := by
  have hc : u16ofInt (ch : Int) = ch := by simp [u16ofInt]; omega
  have hb : u16ofInt (bits : Int) = bits := by simp [u16ofInt]; omega
  have hs : u32ofInt (rate : Int) = rate := by simp [u32ofInt]; omega
  by_cases hm : (bits : Int) % 8 = 0
  · simp only [New, hm, ne_eq, not_true_eq_false, if_false, ite_false, if_neg,
      not_false_eq_true, if_true, hc, hb, hs, Except.ok.injEq] at hf
    rw [← hf]
    simp only []
    constructor
    · show ch * bits % 65536 / 8 = ch * bits / 8
      rw [Nat.mod_eq_of_lt h4]
    · show rate * (ch * bits % 65536 / 8) % 4294967296 = rate * (ch * bits % 65536 / 8)
      rw [Nat.mod_eq_of_lt h4]
      exact Nat.mod_eq_of_lt h5
  · simp [New, hm] at hf

/-- C4, counterexample: decoding a 44-byte buffer whose header declares
a 100-byte payload but which carries none succeeds and leaves
length = 100 with empty data, so length differs from the byte length of
data. -/
theorem c4_length_counterexample :
    (Unmarshal (riffTag ++ (leBytes 4 136 ++ (waveFmtTag ++ (leBytes 4 16 ++
      (leBytes 2 1 ++ (leBytes 2 1 ++ (leBytes 4 8000 ++ (leBytes 4 8000 ++
      (leBytes 2 1 ++ (leBytes 2 8 ++ (dataTag ++
      leBytes 4 100))))))))))) File0).1 = none ∧
    (Unmarshal (riffTag ++ (leBytes 4 136 ++ (waveFmtTag ++ (leBytes 4 16 ++
      (leBytes 2 1 ++ (leBytes 2 1 ++ (leBytes 4 8000 ++ (leBytes 4 8000 ++
      (leBytes 2 1 ++ (leBytes 2 8 ++ (dataTag ++
      leBytes 4 100))))))))))) File0).2.length = 100 ∧
    (Unmarshal (riffTag ++ (leBytes 4 136 ++ (waveFmtTag ++ (leBytes 4 16 ++
      (leBytes 2 1 ++ (leBytes 2 1 ++ (leBytes 4 8000 ++ (leBytes 4 8000 ++
      (leBytes 2 1 ++ (leBytes 2 8 ++ (dataTag ++
      leBytes 4 100))))))))))) File0).2.data.length = 0 := by
  decide

/-- C4, amended: length equals the byte length of data after New, is
preserved by Write while the total stays below 2^32 (the length field
is a uint32), and holds after a successful Unmarshal whenever the
buffer actually holds the declared payload; a truncated buffer breaks
it (see the counterexample). -/
theorem c4_length_invariant :
    (∀ rate bits ch f, New rate bits ch = Except.ok f → f.length = f.data.length) ∧
    (∀ f b, f.length = f.data.length → f.data.length + b.length < 4294967296 →
      (Write f b).2.length = (Write f b).2.data.length) ∧
    (∀ s f0 f, Unmarshal s f0 = (none, f) →
      (if f.formatTag = WAVE_FORMAT_PCM then 44 else 80) + f.length ≤ s.length →
      f.length = f.data.length) := by
  refine ⟨?_, ?_, ?_⟩
  · intro rate bits ch f hf
    by_cases hm : bits % 8 = 0
    · simp only [New, hm, ne_eq, not_true_eq_false, if_false, Except.ok.injEq] at hf
      rw [← hf]
      rfl
    · simp [New, hm] at hf
  · intro f b hinv hfit
    simp only [Write, List.length_append]
    omega
  · intro s f0 f h hoff
    have hd := unmarshal_ok_data s f0 f h
    have : f.data.length =
        min f.length (s.length - (if f.formatTag = WAVE_FORMAT_PCM then 44 else 80)) := by
      rw [hd]
      simp [List.length_take, List.length_drop]
    split at hoff <;> (rw [this]; split <;> omega)

/-- C8, counterexample: Unmarshal writes the stream format tag into the
destination File before validating it, so on a buffer with tag 2 the
call errors out but the destination format tag has changed. -/
theorem c8_mutation_counterexample :
    (Unmarshal (List.replicate 20 0 ++ [2, 0]) File0).1 ≠ none ∧
    (Unmarshal (List.replicate 20 0 ++ [2, 0]) File0).2.formatTag ≠ File0.formatTag := by
  decide

/-- C8, amended: on a buffer of at least 22 bytes whose 2-byte
little-endian field at offset 20 is neither PCM nor EXTENSIBLE,
Unmarshal returns the invalid-format-tag error and leaves every field
of the destination unchanged except formatTag, which it has already set
to the value read from the stream. -/
theorem c8_invalid_tag_mutates_tag_only (s : List Nat) (prev : File)
    (h22 : 22 ≤ s.length) (h1 : leVal ((s.drop 20).take 2) ≠ WAVE_FORMAT_PCM)
    (h2 : leVal ((s.drop 20).take 2) ≠ WAVE_FORMAT_EXTENSIBLE) :
    (Unmarshal s prev).1 = some "error: invalid format tag" ∧
    (Unmarshal s prev).2 = { prev with formatTag := leVal ((s.drop 20).take 2) } := by
  have hr : readField s 20 2 prev.formatTag = leVal ((s.drop 20).take 2) :=
    readField_of_le s 20 2 _ (by omega)
  have hcond : ¬ (readField s 20 2 prev.formatTag = WAVE_FORMAT_PCM ∨
      readField s 20 2 prev.formatTag = WAVE_FORMAT_EXTENSIBLE) := by
    rw [hr]
    push_neg
    exact ⟨h1, h2⟩
  simp only [Unmarshal]
  rw [if_neg hcond]
  refine ⟨rfl, ?_⟩
  rw [hr]

theorem c5_new_spec_witness :
    (∃ f, New 44100 16 2 = Except.ok f) ↔ (16 : Int) % 8 = 0 :=
  (c5_new_spec 44100 16 2).1

theorem c3_invariants_after_new_witness :
    ({ formatTag := 1, channels := 2, samplesPerSec := 44100, avgBytesPerSec := 176400,
       blockAlign := 4, bitsPerSample := 16, length := 0, data := [],
       offset := 0 } : File).blockAlign =
      ({ formatTag := 1, channels := 2, samplesPerSec := 44100, avgBytesPerSec := 176400,
         blockAlign := 4, bitsPerSample := 16, length := 0, data := [],
         offset := 0 } : File).channels *
        ({ formatTag := 1, channels := 2, samplesPerSec := 44100, avgBytesPerSec := 176400,
           blockAlign := 4, bitsPerSample := 16, length := 0, data := [],
           offset := 0 } : File).bitsPerSample / 8 ∧
    ({ formatTag := 1, channels := 2, samplesPerSec := 44100, avgBytesPerSec := 176400,
       blockAlign := 4, bitsPerSample := 16, length := 0, data := [],
       offset := 0 } : File).avgBytesPerSec =
      ({ formatTag := 1, channels := 2, samplesPerSec := 44100, avgBytesPerSec := 176400,
         blockAlign := 4, bitsPerSample := 16, length := 0, data := [],
         offset := 0 } : File).samplesPerSec *
        ({ formatTag := 1, channels := 2, samplesPerSec := 44100, avgBytesPerSec := 176400,
           blockAlign := 4, bitsPerSample := 16, length := 0, data := [],
           offset := 0 } : File).blockAlign :=
  c3_invariants_after_new 44100 16 2 (by decide) (by decide) (by decide) (by decide)
    (by decide)
    { formatTag := 1, channels := 2, samplesPerSec := 44100, avgBytesPerSec := 176400,
      blockAlign := 4, bitsPerSample := 16, length := 0, data := [], offset := 0 }
    rfl

theorem c4_length_invariant_witness :
    (Write File0 [5]).2.length = (Write File0 [5]).2.data.length :=
  c4_length_invariant.2.1 File0 [5] rfl (by decide)

theorem c8_invalid_tag_mutates_tag_only_witness :
    (Unmarshal (List.replicate 20 0 ++ [2, 0]) File0).1 = some "error: invalid format tag" ∧
    (Unmarshal (List.replicate 20 0 ++ [2, 0]) File0).2 =
      { File0 with formatTag := leVal (((List.replicate 20 0 ++ [2, 0]).drop 20).take 2) } :=
  c8_invalid_tag_mutates_tag_only (List.replicate 20 0 ++ [2, 0]) File0
    (by decide) (by decide) (by decide)

/-- C7: one Read call from any reachable cursor position returns exactly
the next bytes of data in their original order, advances the cursor by
the returned count, and returns io.EOF exactly when the request could
not be filled, in which case all length bytes have been consumed; EOF is
never signalled while unread bytes remain. -/
theorem c7_read_spec (f : File) (size : Nat) (hlen : f.length = f.data.length)
    (hoff : f.offset ≤ f.length) :
    (Read f size).1 = (f.data.drop f.offset).take (min size (f.length - f.offset)) ∧
    (Read f size).2.2.offset = f.offset + min size (f.length - f.offset) ∧
    ((Read f size).2.1 = true ↔ f.length - f.offset < size) ∧
    ((Read f size).2.1 = true → (Read f size).2.2.offset = f.length) := by
  induction size generalizing f with
  | zero =>
    refine ⟨by simp [Read], by simp [Read], by simp [Read], by simp [Read]⟩
  | succ k ih =>
    by_cases he : f.length ≤ f.offset
    · have heq : f.length - f.offset = 0 := by omega
      refine ⟨?_, ?_, ?_, ?_⟩ <;>
        simp only [Read, if_pos he, heq, Nat.min_zero, List.take_zero, Nat.add_zero]
      · simp
      · omega
    · have hlt : f.offset < f.data.length := by omega
      have hdrop : f.data.drop f.offset = f.data[f.offset] :: f.data.drop (f.offset + 1) :=
        List.drop_eq_getElem_cons hlt
      have hgetD : f.data.getD f.offset 0 = f.data[f.offset] := List.getD_eq_getElem _ _ hlt
      have hmin : min (k + 1) (f.length - f.offset) =
          min k (f.length - (f.offset + 1)) + 1 := by omega
      obtain ⟨ih1, ih2, ih3, ih4⟩ := ih { f with offset := f.offset + 1 } hlen
        (show f.offset + 1 ≤ f.length by omega)
      have ih2' : (Read { f with offset := f.offset + 1 } k).2.2.offset =
          (f.offset + 1) + min k (f.length - (f.offset + 1)) := ih2
      have ih3' : ((Read { f with offset := f.offset + 1 } k).2.1 = true ↔
          f.length - (f.offset + 1) < k) := ih3
      refine ⟨?_, ?_, ?_, ?_⟩
      · simp only [Read, if_neg he]
        rw [ih1, hgetD, hdrop, hmin, List.take_succ_cons]
      · simp only [Read, if_neg he]
        rw [ih2']
        omega
      · simp only [Read, if_neg he]
        rw [ih3']
        omega
      · intro heof
        simp only [Read, if_neg he] at heof ⊢
        rw [ih2']
        have := ih3'.mp heof
        omega

theorem c7_read_spec_witness :
    (Read { File0 with length := 3, data := [5, 6, 7] } 5).1 =
      ((({ File0 with length := 3, data := [5, 6, 7] } : File).data.drop
          ({ File0 with length := 3, data := [5, 6, 7] } : File).offset).take
        (min 5 (({ File0 with length := 3, data := [5, 6, 7] } : File).length -
          ({ File0 with length := 3, data := [5, 6, 7] } : File).offset))) ∧
    ((Read { File0 with length := 3, data := [5, 6, 7] } 5).2.1 = true ↔
      ({ File0 with length := 3, data := [5, 6, 7] } : File).length -
        ({ File0 with length := 3, data := [5, 6, 7] } : File).offset < 5) :=
  ⟨(c7_read_spec { File0 with length := 3, data := [5, 6, 7] } 5 (by decide) (by decide)).1,
   (c7_read_spec { File0 with length := 3, data := [5, 6, 7] } 5 (by decide) (by decide)).2.2.1⟩

/-- Helper: reading byte-sized values recovers the buffer itself. -/
theorem readInts_one (l : List Nat) : readInts 1 l.length l = l := by
  unfold readInts
  rw [if_pos (by omega)]
  apply List.ext_getElem
  · simp
  · intro i h1 h2
    simp only [List.getElem_map, List.getElem_range, Nat.one_mul]
    rw [List.drop_eq_getElem_cons h2]
    simp [leVal]

/-- C6: for a consistent File (nonzero channels, derived block align,
length the byte length of data), Int32s converts 8-bit samples by
sign-extension times 2^24, little-endian 16-bit samples times 2^16, and
32-bit samples verbatim, and for every supported depth the output has
Samples() = length / (blockAlign / channels) entries.  The hypothesis on
24-bit payloads only keeps the Go byte-shuffle loop in bounds. -/
theorem c6_int32s_scaling (f : File) (hch : f.channels ≠ 0)
    (hba : f.blockAlign = f.channels * f.bitsPerSample / 8)
    (hlen : f.length = f.data.length)
    (h24 : f.bitsPerSample = 24 → 3 ∣ f.length) :
    (f.bitsPerSample = 8 → Int32s f = f.data.map (fun b => sgn8 b * 16777216)) ∧
    (f.bitsPerSample = 16 → Int32s f =
      (List.range (f.length / 2)).map
        (fun i => sgn16 (leVal ((f.data.drop (2 * i)).take 2)) * 65536)) ∧
    (f.bitsPerSample = 32 → Int32s f =
      (List.range (f.length / 4)).map
        (fun i => sgn32 (leVal ((f.data.drop (4 * i)).take 4)))) ∧
    ((f.bitsPerSample = 8 ∨ f.bitsPerSample = 16 ∨ f.bitsPerSample = 24 ∨
        f.bitsPerSample = 32) → (Int32s f).length = Samples f) := by
  refine ⟨?_, ?_, ?_, ?_⟩
  · intro hb
    have hba8 : f.blockAlign = f.channels := by rw [hba, hb]; omega
    have hsamp : Samples f = f.data.length := by
      unfold Samples
      rw [hba8, Nat.div_self (Nat.pos_of_ne_zero hch), Nat.div_one, hlen]
    simp only [Int32s, hb]
    norm_num
    unfold fromS8ToInt32s
    rw [hsamp, readInts_one]
  · intro hb
    have hba2 : f.blockAlign = f.channels * 2 := by rw [hba, hb]; omega
    have hsamp : Samples f = f.length / 2 := by
      unfold Samples
      rw [hba2, Nat.mul_div_cancel_left 2 (Nat.pos_of_ne_zero hch)]
    simp only [Int32s, hb]
    norm_num
    unfold fromS16ToInt32s
    rw [hsamp]
    unfold readInts
    rw [if_pos (by omega), List.map_map]
    rfl
  · intro hb
    have hba4 : f.blockAlign = f.channels * 4 := by rw [hba, hb]; omega
    have hsamp : Samples f = f.length / 4 := by
      unfold Samples
      rw [hba4, Nat.mul_div_cancel_left 4 (Nat.pos_of_ne_zero hch)]
    simp only [Int32s, hb]
    norm_num
    unfold fromS32ToInt32s
    rw [hsamp]
    unfold readInts
    rw [if_pos (by omega), List.map_map]
    rfl
  · intro hd
    rcases hd with h | h | h | h
    · simp [Int32s, h, fromS8ToInt32s, readInts_length]
    · simp [Int32s, h, fromS16ToInt32s, readInts_length]
    · simp [Int32s, h, fromS24ToInt32s, readInts_length]
    · simp [Int32s, h, fromS32ToInt32s, readInts_length]

theorem c6_int32s_scaling_witness :
    Int32s { File0 with bitsPerSample := 16, channels := 1, blockAlign := 2, length := 2, data := [0, 1] } =
      (List.range (2 / 2)).map
        (fun i => sgn16 (leVal ((([0, 1] : List Nat).drop (2 * i)).take 2)) * 65536) :=
  (c6_int32s_scaling
    { File0 with bitsPerSample := 16, channels := 1, blockAlign := 2, length := 2, data := [0, 1] }
    (by decide) (by decide) (by decide) (by decide)).2.1 (by decide)

/-- Helper: byte length of the PCM profile. -/
theorem pcmProfile_length (ch rate avg align bits : Nat) (payload : List Nat) :
    (pcmProfile ch rate avg align bits payload).length = payload.length + 44 := by
  simp [pcmProfile, riffTag, waveFmtTag, dataTag, leBytes_length, List.length_append]
  omega

/-- Helper: decoding a PCM-profile buffer recovers its header fields and
payload exactly. -/
theorem unmarshal_pcmProfile (ch rate avg align bits : Nat) (payload : List Nat)
    (hch : ch < 65536) (hrate : rate < 4294967296) (havg : avg < 4294967296)
    (halign : align < 65536) (hbits : bits < 65536)
    (hL : payload.length < 4294967296) :
    Unmarshal (pcmProfile ch rate avg align bits payload) File0 =
      (none, { formatTag := WAVE_FORMAT_PCM, channels := ch, samplesPerSec := rate,
               avgBytesPerSec := avg, blockAlign := align, bitsPerSample := bits,
               length := payload.length, data := payload, offset := 0 }) := by
  have hlen := pcmProfile_length ch rate avg align bits payload
  have r20 : ∀ old, readField (pcmProfile ch rate avg align bits payload) 20 2 old =
      WAVE_FORMAT_PCM := by
    intro old
    rw [readField_of_le _ _ _ _ (by rw [hlen]; omega)]
    rw [show ((pcmProfile ch rate avg align bits payload).drop 20).take 2 =
        leBytes 2 WAVE_FORMAT_PCM from rfl]
    exact leVal_leBytes 2 WAVE_FORMAT_PCM (by norm_num [WAVE_FORMAT_PCM])
  have r22 : ∀ old, readField (pcmProfile ch rate avg align bits payload) 22 2 old = ch := by
    intro old
    rw [readField_of_le _ _ _ _ (by rw [hlen]; omega)]
    rw [show ((pcmProfile ch rate avg align bits payload).drop 22).take 2 =
        leBytes 2 ch from rfl]
    exact leVal_leBytes 2 ch (by norm_num; omega)
  have r24 : ∀ old, readField (pcmProfile ch rate avg align bits payload) 24 4 old = rate := by
    intro old
    rw [readField_of_le _ _ _ _ (by rw [hlen]; omega)]
    rw [show ((pcmProfile ch rate avg align bits payload).drop 24).take 4 =
        leBytes 4 rate from rfl]
    exact leVal_leBytes 4 rate (by norm_num; omega)
  have r28 : ∀ old, readField (pcmProfile ch rate avg align bits payload) 28 4 old = avg := by
    intro old
    rw [readField_of_le _ _ _ _ (by rw [hlen]; omega)]
    rw [show ((pcmProfile ch rate avg align bits payload).drop 28).take 4 =
        leBytes 4 avg from rfl]
    exact leVal_leBytes 4 avg (by norm_num; omega)
  have r32 : ∀ old, readField (pcmProfile ch rate avg align bits payload) 32 2 old = align := by
    intro old
    rw [readField_of_le _ _ _ _ (by rw [hlen]; omega)]
    rw [show ((pcmProfile ch rate avg align bits payload).drop 32).take 2 =
        leBytes 2 align from rfl]
    exact leVal_leBytes 2 align (by norm_num; omega)
  have r34 : ∀ old, readField (pcmProfile ch rate avg align bits payload) 34 2 old = bits := by
    intro old
    rw [readField_of_le _ _ _ _ (by rw [hlen]; omega)]
    rw [show ((pcmProfile ch rate avg align bits payload).drop 34).take 2 =
        leBytes 2 bits from rfl]
    exact leVal_leBytes 2 bits (by norm_num; omega)
  have r40 : ∀ old, readField (pcmProfile ch rate avg align bits payload) 40 4 old =
      payload.length := by
    intro old
    rw [readField_of_le _ _ _ _ (by rw [hlen]; omega)]
    rw [show ((pcmProfile ch rate avg align bits payload).drop 40).take 4 =
        leBytes 4 payload.length from rfl]
    exact leVal_leBytes 4 payload.length (by norm_num; omega)
  have d44 : (pcmProfile ch rate avg align bits payload).drop 44 = payload := rfl
  simp only [Unmarshal, r20, r22, r24, r28, r32, r34, r40, WAVE_FORMAT_PCM,
    WAVE_FORMAT_EXTENSIBLE]
  norm_num
  rw [d44, List.take_length]
  exact ⟨rfl, rfl⟩

/-- Helper: byte length of the EXTENSIBLE profile. -/
theorem extProfile_length (ch rate avg align bits vbits mask fcount : Nat)
    (payload : List Nat) :
    (extProfile ch rate avg align bits vbits mask fcount payload).length =
      payload.length + 80 := by
  simp [extProfile, riffTag, waveFmtTag, dataTag, factTag, guidPCM, leBytes_length,
    List.length_append]
  omega

/-- Helper: decoding an EXTENSIBLE-profile buffer recovers the header
fields and the payload; the validBitsPerSample, channel-mask and
fact-count fields are not read back. -/
theorem unmarshal_extProfile (ch rate avg align bits vbits mask fcount : Nat)
    (payload : List Nat)
    (hch : ch < 65536) (hrate : rate < 4294967296) (havg : avg < 4294967296)
    (halign : align < 65536) (hbits : bits < 65536)
    (hL : payload.length < 4294967296) :
    Unmarshal (extProfile ch rate avg align bits vbits mask fcount payload) File0 =
      (none, { formatTag := WAVE_FORMAT_EXTENSIBLE, channels := ch, samplesPerSec := rate,
               avgBytesPerSec := avg, blockAlign := align, bitsPerSample := bits,
               length := payload.length, data := payload, offset := 0 }) := by
  have hlen := extProfile_length ch rate avg align bits vbits mask fcount payload
  have r20 : ∀ old, readField (extProfile ch rate avg align bits vbits mask fcount payload)
      20 2 old = WAVE_FORMAT_EXTENSIBLE := by
    intro old
    rw [readField_of_le _ _ _ _ (by rw [hlen]; omega)]
    rw [show ((extProfile ch rate avg align bits vbits mask fcount payload).drop 20).take 2 =
        leBytes 2 WAVE_FORMAT_EXTENSIBLE from rfl]
    exact leVal_leBytes 2 WAVE_FORMAT_EXTENSIBLE (by norm_num [WAVE_FORMAT_EXTENSIBLE])
  have r22 : ∀ old, readField (extProfile ch rate avg align bits vbits mask fcount payload)
      22 2 old = ch := by
    intro old
    rw [readField_of_le _ _ _ _ (by rw [hlen]; omega)]
    rw [show ((extProfile ch rate avg align bits vbits mask fcount payload).drop 22).take 2 =
        leBytes 2 ch from rfl]
    exact leVal_leBytes 2 ch (by norm_num; omega)
  have r24 : ∀ old, readField (extProfile ch rate avg align bits vbits mask fcount payload)
      24 4 old = rate := by
    intro old
    rw [readField_of_le _ _ _ _ (by rw [hlen]; omega)]
    rw [show ((extProfile ch rate avg align bits vbits mask fcount payload).drop 24).take 4 =
        leBytes 4 rate from rfl]
    exact leVal_leBytes 4 rate (by norm_num; omega)
  have r28 : ∀ old, readField (extProfile ch rate avg align bits vbits mask fcount payload)
      28 4 old = avg := by
    intro old
    rw [readField_of_le _ _ _ _ (by rw [hlen]; omega)]
    rw [show ((extProfile ch rate avg align bits vbits mask fcount payload).drop 28).take 4 =
        leBytes 4 avg from rfl]
    exact leVal_leBytes 4 avg (by norm_num; omega)
  have r32 : ∀ old, readField (extProfile ch rate avg align bits vbits mask fcount payload)
      32 2 old = align := by
    intro old
    rw [readField_of_le _ _ _ _ (by rw [hlen]; omega)]
    rw [show ((extProfile ch rate avg align bits vbits mask fcount payload).drop 32).take 2 =
        leBytes 2 align from rfl]
    exact leVal_leBytes 2 align (by norm_num; omega)
  have r34 : ∀ old, readField (extProfile ch rate avg align bits vbits mask fcount payload)
      34 2 old = bits := by
    intro old
    rw [readField_of_le _ _ _ _ (by rw [hlen]; omega)]
    rw [show ((extProfile ch rate avg align bits vbits mask fcount payload).drop 34).take 2 =
        leBytes 2 bits from rfl]
    exact leVal_leBytes 2 bits (by norm_num; omega)
  have e44 : (extProfile ch rate avg align bits vbits mask fcount payload).drop 44 =
      guidPCM ++ (factTag ++ (leBytes 4 4 ++ (leBytes 4 fcount ++ (dataTag ++
        (leBytes 4 payload.length ++ payload))))) := rfl
  have r76 : ∀ old, readField (extProfile ch rate avg align bits vbits mask fcount payload)
      76 4 old = payload.length := by
    intro old
    rw [readField_of_le _ _ _ _ (by rw [hlen]; omega)]
    rw [show (extProfile ch rate avg align bits vbits mask fcount payload).drop 76 =
        ((extProfile ch rate avg align bits vbits mask fcount payload).drop 44).drop 32 from
        (List.drop_drop 32 44 _).symm]
    rw [e44]
    rw [show (((guidPCM ++ (factTag ++ (leBytes 4 4 ++ (leBytes 4 fcount ++ (dataTag ++
        (leBytes 4 payload.length ++ payload)))))).drop 32).take 4) =
        leBytes 4 payload.length from rfl]
    exact leVal_leBytes 4 payload.length (by norm_num; omega)
  have d80 : (extProfile ch rate avg align bits vbits mask fcount payload).drop 80 =
      payload := by
    rw [show (extProfile ch rate avg align bits vbits mask fcount payload).drop 80 =
        ((extProfile ch rate avg align bits vbits mask fcount payload).drop 44).drop 36 from
        (List.drop_drop 36 44 _).symm]
    rw [e44]
    rfl
  simp only [Unmarshal, r20, r22, r24, r28, r32, r34, r76, WAVE_FORMAT_PCM,
    WAVE_FORMAT_EXTENSIBLE]
  norm_num
  rw [d80, List.take_length]
  exact ⟨rfl, rfl⟩

/-- Helper: Marshal output for a PCM File whose length matches its data. -/
theorem marshal_pcmFile (ch rate avg align bits : Nat) (payload : List Nat)
    (hfit : payload.length + 36 < 4294967296) :
    Marshal { formatTag := WAVE_FORMAT_PCM, channels := ch, samplesPerSec := rate,
              avgBytesPerSec := avg, blockAlign := align, bitsPerSample := bits,
              length := payload.length, data := payload, offset := 0 } =
      Except.ok (pcmProfile ch rate avg align bits payload) := by
  simp only [Marshal]
  norm_num
  rw [Nat.mod_eq_of_lt hfit]
  rfl

/-- Helper: Marshal output for an EXTENSIBLE File whose length matches
its data: the valid-bits, channel-mask and fact-count fields are derived
from the other fields. -/
theorem marshal_extFile (ch rate avg align bits : Nat) (payload : List Nat)
    (hfit : payload.length + 72 < 4294967296) :
    Marshal { formatTag := WAVE_FORMAT_EXTENSIBLE, channels := ch, samplesPerSec := rate,
              avgBytesPerSec := avg, blockAlign := align, bitsPerSample := bits,
              length := payload.length, data := payload, offset := 0 } =
      Except.ok (extProfile ch rate avg align bits bits (getChannelMask ch)
        (payload.length / align) payload) := by
  simp only [Marshal]
  norm_num [WAVE_FORMAT_EXTENSIBLE, WAVE_FORMAT_PCM]
  rw [Nat.mod_eq_of_lt hfit,
    Nat.mod_eq_of_lt (lt_of_le_of_lt (Nat.div_le_self payload.length align) (by omega))]
  rfl

/-- Helper: re-encoding factors through Marshal after a successful decode. -/
theorem reencode_eq (s : List Nat) (f : File) (h : Unmarshal s File0 = (none, f)) :
    reencode s = (Marshal f).toOption := by
  unfold reencode
  rw [h]

/-- C1, counterexample: this buffer matches the fixed-offset EXTENSIBLE
profile (all constrained fields correct: cbSize 22, valid GUID, fact
chunk; stereo, 24-bit, valid block align and frame count), but its
channel-mask field holds 7 where the encoder derives 3 for two channels,
so decode-then-encode is not the identity on it. -/
theorem c1_roundtrip_counterexample :
    (Unmarshal (extProfile 2 44100 264600 6 24 24 7 0 []) File0).1 = none ∧
    reencode (extProfile 2 44100 264600 6 24 24 7 0 []) ≠
      some (extProfile 2 44100 264600 6 24 24 7 0 []) := by
  constructor
  · decide
  · decide

/-- C1, amended: decode-then-encode is the byte-for-byte identity on
every buffer of the fixed-offset PCM profile, and on every buffer of the
EXTENSIBLE profile whose derived fields already agree with what the
encoder writes: validBitsPerSample equal to bits_per_sample, channel
mask equal to the mask table value for the channel count, and fact frame
count equal to payload length / block align (block align nonzero, since
the encoder divides by it).  Header fields must fit their 16- or 32-bit
slots and the payload below 2^32 - 72 bytes. -/
theorem c1_roundtrip_amended :
    (∀ ch rate avg align bits (payload : List Nat), ch < 65536 → rate < 4294967296 →
      avg < 4294967296 → align < 65536 → bits < 65536 →
      payload.length + 36 < 4294967296 →
      reencode (pcmProfile ch rate avg align bits payload) =
        some (pcmProfile ch rate avg align bits payload)) ∧
    (∀ ch rate avg align bits (payload : List Nat), ch < 65536 → rate < 4294967296 →
      avg < 4294967296 → align < 65536 → bits < 65536 → align ≠ 0 →
      payload.length + 72 < 4294967296 →
      reencode (extProfile ch rate avg align bits bits (getChannelMask ch)
          (payload.length / align) payload) =
        some (extProfile ch rate avg align bits bits (getChannelMask ch)
          (payload.length / align) payload)) := by
  constructor
  · intro ch rate avg align bits payload h1 h2 h3 h4 h5 h6
    rw [reencode_eq _ _
      (unmarshal_pcmProfile ch rate avg align bits payload h1 h2 h3 h4 h5 (by omega))]
    rw [marshal_pcmFile ch rate avg align bits payload h6]
    rfl
  · intro ch rate avg align bits payload h1 h2 h3 h4 h5 h6 h7
    rw [reencode_eq _ _
      (unmarshal_extProfile ch rate avg align bits bits (getChannelMask ch)
        (payload.length / align) payload h1 h2 h3 h4 h5 (by omega))]
    rw [marshal_extFile ch rate avg align bits payload h7]
    rfl

theorem c1_roundtrip_amended_witness :
    reencode (pcmProfile 2 44100 176400 4 16 []) =
      some (pcmProfile 2 44100 176400 4 16 []) :=
  c1_roundtrip_amended.1 2 44100 176400 4 16 [] (by decide) (by decide) (by decide)
    (by decide) (by decide) (by decide)

end wav
